import Mathlib

/-!
Verification development for the redis-face facade library.

The repository declares its public surface in src/index.ts; the per-type
facade implementations (List, HashMap, Set, SortedSet, util) live in
separate modules whose code is not part of the src tree, so the operations
below are modelled from the specification document, faithful to its words
(index translation rules, splice algorithm, read-then-single-write
transactions, and so on).
-/

set_option autoImplicit false

/-- Modelled from the spec: the store holds one value per key; a value is one
of the five primitive data types of the backend. The String, HashMap, Set and
SortedSet facade implementation modules are missing from the source tree. -/
inductive RedisValue where
  | str (s : String)
  | list (l : List String)
  | hash (h : List (String × String))
  | set (s : List String)
  | zset (z : List (String × Int))
  deriving DecidableEq, Repr

/-- Modelled from the spec: the external key-value store, a mapping from key
strings to values; absent keys map to none. -/
def Store : Type := String → Option RedisValue

/-- Writes a value (or key deletion, for none) at a key of the store. -/
def Store.update (s : Store) (k : String) (v : Option RedisValue) : Store :=
  fun q => if q = k then v else s q

/-- Modelled from the spec: index translation rule of the List facade — any
negative index i is translated to length + i before submission to the store
(spec section 4.3); the List module is missing from the source tree. -/
def transIdx (len : Nat) (i : Int) : Int :=
  if i < 0 then (len : Int) + i else i

/-- Modelled from the spec: clamping index translation used by slice and
splice — out-of-range indices clamp rather than error (spec sections 4.2 and
4.3); the List module is missing from the source tree. -/
def sliceIdx (len : Nat) (i : Int) : Nat :=
  if i < 0 then (max 0 ((len : Int) + i)).toNat else min i.toNat len

/-- Modelled from the spec: List.get translates the index and validates it to
be within the bounds, else fails; the List module is missing from the source
tree. -/
def RedisList.get (l : List String) (i : Int) : Option String :=
  let j := transIdx l.length i
  if j < 0 then none else l.get? j.toNat

/-- Modelled from the spec: List.set translates the index, validates it to be
within the bounds, and overwrites the element there; the List module is
missing from the source tree. -/
def RedisList.set (l : List String) (i : Int) (v : String) : Option (List String) :=
  let j := transIdx l.length i
  if j < 0 ∨ (l.length : Int) ≤ j then none else some (l.set j.toNat v)

/-- Modelled from the spec: List.slice is a read-only range extraction,
negative-index aware, end exclusive, clamping to bounds; the List module is
missing from the source tree. -/
def RedisList.slice (l : List String) (start : Int) (stop : Option Int) : List String :=
  let s := sliceIdx l.length start
  let e := match stop with
    | none => l.length
    | some x => sliceIdx l.length x
  (l.take e).drop s

/-- Modelled from the spec: List.splice translates start, extracts the count
elements to be removed (the return value), and reconstructs the list with the
items inserted in their place; the List module is missing from the source
tree. Returns the removed elements paired with the rebuilt list. -/
def RedisList.splice (l : List String) (start : Int) (count : Nat)
    (items : List String) : List String × List String :=
  let s := sliceIdx l.length start
  ((l.drop s).take count, l.take s ++ items ++ l.drop (s + count))

/-- Parses a run of decimal digits, accumulating the value; fails on any
non-digit character. -/
def parseDigits : List Char → Nat → Option Nat
  | [], acc => some acc
  | c :: cs, acc =>
      if c.isDigit then parseDigits cs (acc * 10 + (c.toNat - 48)) else none

/-- Parses an integer literal string: an optional leading minus sign followed
by at least one decimal digit. -/
def parseIntStr (s : String) : Option Int :=
  match s.data with
  | [] => none
  | c :: cs =>
      if c = '-' then
        match cs with
        | [] => none
        | _ => (parseDigits cs 0).map (fun n => -(n : Int))
      else (parseDigits (c :: cs) 0).map (fun n => (n : Int))

/-- String order as a boolean relation, for sorting. -/
def strLe (a b : String) : Bool := !(decide (b < a))

/-- Numeric order on numeric strings, comparing parsed integer values. -/
def numLe (a b : String) : Bool :=
  decide (((parseIntStr a).getD 0) ≤ ((parseIntStr b).getD 0))

/-- Checks that every element of the list parses as an integer literal. -/
def allNumeric (l : List String) : Bool := l.all (fun s => (parseIntStr s).isSome)

/-- Inserts an element into a list sorted by the given relation. -/
def insertLe (le : String → String → Bool) (x : String) : List String → List String
  | [] => [x]
  | y :: ys => if le x y then x :: y :: ys else y :: insertLe le x ys

/-- Insertion sort by the given boolean relation. -/
def insSort (le : String → String → Bool) : List String → List String
  | [] => []
  | x :: xs => insertLe le x (insSort le xs)

/-- Modelled from the spec: List.sort fetches all elements and sorts them
numerically when all elements are numeric, else lexicographically, ascending
for order 1 and descending for order -1; the List module is missing from the
source tree. -/
def RedisList.sort (l : List String) (order : Int) : List String :=
  let le := if allNumeric l then numLe else strLe
  let sorted := insSort le l
  if order < 0 then sorted.reverse else sorted

/-- Reads the list stored at a key: an absent key denotes the empty list and
a key of another type is a failure (wrong type). -/
def Store.readList (s : Store) (k : String) : Option (List String) :=
  match s k with
  | some (RedisValue.list l) => some l
  | none => some []
  | some _ => none

/-- Modelled from the spec: a composite list operation is a read-then-
single-write transaction — the list is fetched, the rewrite computed locally,
and the rebuilt list written back in the single final write step (spec
sections 4.3, 5 and 7). Failure of the read phase leaves the store untouched. -/
def rmwList {α : Type} (s : Store) (k : String)
    (f : List String → α × List String) : Option α × Store :=
  match Store.readList s k with
  | none => (none, s)
  | some l =>
      let r := f l
      (some r.1, Store.update s k (some (RedisValue.list r.2)))

/-- Modelled from the spec: the store-level List.splice operation, issued as
one read-then-single-write transaction against the bound key. -/
def spliceStore (s : Store) (k : String) (start : Int) (count : Nat)
    (items : List String) : Option (List String) × Store :=
  rmwList s k (fun l => RedisList.splice l start count items)

/-- Modelled from the spec: the store-level List.sort operation, issued as one
read-then-single-write transaction against the bound key. -/
def sortStore (s : Store) (k : String) (order : Int) : Option (List String) × Store :=
  rmwList s k (fun l => let r := RedisList.sort l order; (r, r))

/-- Modelled from the spec: the store-level List.reverse operation, issued as
one read-then-single-write transaction against the bound key. -/
def reverseStore (s : Store) (k : String) : Option (List String) × Store :=
  rmwList s k (fun l => (l.reverse, l.reverse))

/-- A concrete store holding the list a, b, c, d at key k. -/
def storeABCD : Store :=
  fun q => if q = "k" then some (RedisValue.list ["a", "b", "c", "d"]) else none

/-- A concrete store holding the list 3, 1, 2 at key k. -/
def store312 : Store :=
  fun q => if q = "k" then some (RedisValue.list ["3", "1", "2"]) else none

/-- C1: splicing the stored list a, b, c, d at start 1, count 2, inserting x,
returns the removed elements b, c and leaves the stored list a, x, d. -/
theorem splice_abcd_correct :
    (spliceStore storeABCD "k" 1 2 ["x"]).1 = some ["b", "c"] ∧
    (spliceStore storeABCD "k" 1 2 ["x"]).2 "k" =
      some (RedisValue.list ["a", "x", "d"]) := by
  constructor <;> rfl

/-- C7: sorting the stored list 3, 1, 2 in descending numeric order returns
3, 2, 1 and writes that order back to the stored list. -/
theorem sort_desc_312_correct :
    (sortStore store312 "k" (-1)).1 = some ["3", "2", "1"] ∧
    (sortStore store312 "k" (-1)).2 "k" =
      some (RedisValue.list ["3", "2", "1"]) := by
  constructor <;> decide

/-- Modelled from the spec: the Set facade keeps unique values; add is an
unordered insert where duplicates are no-ops; the Set module is missing from
the source tree. -/
def RedisSet.add (s : List String) (v : String) : List String :=
  if s.contains v then s else s ++ [v]

/-- Modelled from the spec: Set membership check. -/
def RedisSet.has (s : List String) (v : String) : Bool := s.contains v

/-- Modelled from the spec: number of elements of the set. -/
def RedisSet.size (s : List String) : Nat := s.length

/-- Adding a value makes it a member. -/
theorem RedisSet.has_add (s : List String) (v : String) :
    RedisSet.has (RedisSet.add s v) v = true := by
  unfold RedisSet.has RedisSet.add
  by_cases h : v ∈ s <;> simp [h]

/-- Adding a value that is already a member leaves the set unchanged. -/
theorem RedisSet.add_mem_noop (s : List String) (v : String)
    (h : RedisSet.has s v = true) : RedisSet.add s v = s := by
  unfold RedisSet.has at h
  simp at h
  unfold RedisSet.add
  simp [h]

/-- C5: adding the same value twice leaves the size as after the first add,
and membership of the value holds. -/
theorem set_add_idempotent (s : List String) (v : String) :
    RedisSet.size (RedisSet.add (RedisSet.add s v) v) =
      RedisSet.size (RedisSet.add s v) ∧
    RedisSet.has (RedisSet.add (RedisSet.add s v) v) v = true := by
  have h1 : RedisSet.add (RedisSet.add s v) v = RedisSet.add s v :=
    RedisSet.add_mem_noop _ _ (RedisSet.has_add s v)
  refine ⟨by rw [h1], ?_⟩
  rw [h1]
  exact RedisSet.has_add s v

/-- Modelled from the spec: membership in a collection — the collection base
module is missing from the source tree; on a list it checks whether the value
occurs among the elements. -/
def RedisCollection.has (l : List String) (v : String) : Bool := l.contains v

/-- Modelled from the spec: List.includes is documented in the source as a
synonym of has; the List module is missing from the source tree. -/
def RedisList.includes (l : List String) (v : String) : Bool :=
  RedisCollection.has l v

/-- C9: List.includes returns the same boolean as has on every list and every
value. -/
theorem includes_eq_has (l : List String) (v : String) :
    RedisList.includes l v = RedisCollection.has l v := rfl

/-- Modelled from the spec: a facade instance is a handle — a store-client
reference paired with a key — not a local copy of data; the client reference
is modelled by an identifier. The util module is missing from the source
tree. -/
structure RedisFacadeHandle where
  client : Nat
  key : String
  deriving DecidableEq, Repr

/-- Modelled from the spec: two handles are the same per the is utility iff
they reference the same client connection and the same key, never by value
equality of contents; the util module is missing from the source tree. -/
def RedisFacadeUtils.is (a b : RedisFacadeHandle) : Bool :=
  a.client == b.client && a.key == b.key

/-- C8: is returns true iff the two handles reference the identical client
and the identical key string; for handles with different keys it returns
false even when the stored contents at the two keys are equal. -/
theorem is_iff_same_client_and_key (a b : RedisFacadeHandle) :
    (RedisFacadeUtils.is a b = true ↔ a.client = b.client ∧ a.key = b.key) ∧
    (∀ s : Store, s a.key = s b.key → a.key ≠ b.key →
      RedisFacadeUtils.is a b = false) := by
  constructor
  · unfold RedisFacadeUtils.is
    simp
  · intro s _ hk
    unfold RedisFacadeUtils.is
    simp [hk]

/-- A handle at client 0 bound to key p. -/
def handleP : RedisFacadeHandle := ⟨0, "p"⟩

/-- A handle at client 0 bound to key q. -/
def handleQ : RedisFacadeHandle := ⟨0, "q"⟩

/-- An empty store, under which the contents at any two keys are equal. -/
def emptyStore : Store := fun _ => none

/-- Witness for C8: two distinct-key handles over an empty store, where the
contents at the two keys coincide, compare as not the same. -/
theorem is_iff_same_client_and_key_witness :
    RedisFacadeUtils.is handleP handleQ = false :=
  (is_iff_same_client_and_key handleP handleQ).2 emptyStore rfl (by decide)

/-- The clamping translation maps -1 to length - 1 on a non-empty list. -/
theorem sliceIdx_neg_one (len : Nat) (h : 0 < len) : sliceIdx len (-1) = len - 1 := by
  unfold sliceIdx
  rw [if_pos (by norm_num)]
  omega

/-- The clamping translation fixes the explicit index length - 1. -/
theorem sliceIdx_len_sub_one (len : Nat) (h : 0 < len) :
    sliceIdx len ((len : Int) - 1) = len - 1 := by
  unfold sliceIdx
  rw [if_neg (by omega)]
  omega

/-- The strict translation maps -1 to length - 1. -/
theorem transIdx_neg_one (len : Nat) : transIdx len (-1) = (len : Int) - 1 := by
  unfold transIdx
  rw [if_pos (by norm_num)]
  omega

/-- The strict translation fixes the explicit index length - 1 on a non-empty
list. -/
theorem transIdx_len_sub_one (len : Nat) (h : 0 < len) :
    transIdx len ((len : Int) - 1) = (len : Int) - 1 := by
  unfold transIdx
  rw [if_neg (by omega)]

/-- List.get at index -1 reads the element at position length - 1. -/
theorem RedisList.get_neg_one (l : List String) (h : 0 < l.length) :
    RedisList.get l (-1) = l.get? (l.length - 1) := by
  unfold RedisList.get
  rw [transIdx_neg_one]
  rw [if_neg (by omega)]
  congr 1
  omega

/-- C2: on a non-empty list, get at -1 returns the last element and agrees
with the head of slice at -1; moreover get, set, slice and splice all
translate the index -1 exactly as the explicit index length - 1. -/
theorem get_neg_one_is_last (l : List String) (hne : l ≠ []) (v : String)
    (count : Nat) (items : List String) :
    RedisList.get l (-1) = some (l.getLast hne) ∧
    (RedisList.slice l (-1) none).head? = some (l.getLast hne) ∧
    RedisList.get l (-1) = RedisList.get l ((l.length : Int) - 1) ∧
    RedisList.set l (-1) v = RedisList.set l ((l.length : Int) - 1) v ∧
    RedisList.slice l (-1) none = RedisList.slice l ((l.length : Int) - 1) none ∧
    RedisList.splice l (-1) count items =
      RedisList.splice l ((l.length : Int) - 1) count items := by
  have hlen : 0 < l.length := List.length_pos.mpr hne
  have hlast : l.get? (l.length - 1) = some (l.getLast hne) := by
    rw [List.get?_eq_getElem? l (l.length - 1), ← List.getLast?_eq_getElem? l,
      List.getLast?_eq_getLast_of_ne_nil hne]
  refine ⟨?_, ?_, ?_, ?_, ?_, ?_⟩
  · rw [RedisList.get_neg_one l hlen]
    exact hlast
  · show ((l.take l.length).drop (sliceIdx l.length (-1))).head? = _
    rw [List.take_length, sliceIdx_neg_one _ hlen, List.head?_drop,
      ← List.get?_eq_getElem? l (l.length - 1)]
    exact hlast
  · unfold RedisList.get
    rw [transIdx_neg_one, transIdx_len_sub_one _ hlen]
  · unfold RedisList.set
    rw [transIdx_neg_one, transIdx_len_sub_one _ hlen]
  · unfold RedisList.slice
    rw [sliceIdx_neg_one _ hlen, sliceIdx_len_sub_one _ hlen]
  · unfold RedisList.splice
    rw [sliceIdx_neg_one _ hlen, sliceIdx_len_sub_one _ hlen]

/-- Witness for C2: the property evaluated on the concrete list a, b with a
set value x and splice arguments count 1, no items. -/
theorem get_neg_one_is_last_witness :
    RedisList.get ["a", "b"] (-1) = some "b" ∧
    (RedisList.slice ["a", "b"] (-1) none).head? = some "b" ∧
    RedisList.get ["a", "b"] (-1) = RedisList.get ["a", "b"] 1 ∧
    RedisList.set ["a", "b"] (-1) "x" = RedisList.set ["a", "b"] 1 "x" ∧
    RedisList.slice ["a", "b"] (-1) none = RedisList.slice ["a", "b"] 1 none ∧
    RedisList.splice ["a", "b"] (-1) 1 [] = RedisList.splice ["a", "b"] 1 1 [] := by
  have h := get_neg_one_is_last ["a", "b"] (by decide) "x" 1 []
  simpa using h

/-- Modelled from the spec: SortedSet.add — if the member already exists its
score is updated rather than the member duplicated, otherwise the member is
inserted with the given score; the SortedSet module is missing from the
source tree. -/
def RedisSortedSet.add (z : List (String × Int)) (v : String) (score : Int) :
    List (String × Int) :=
  if z.any (fun p => p.1 == v) then
    z.map (fun p => if p.1 == v then (v, score) else p)
  else z ++ [(v, score)]

/-- Modelled from the spec: SortedSet.set is an absolute score assignment that
creates the member if absent; the SortedSet module is missing from the source
tree. -/
def RedisSortedSet.set (z : List (String × Int)) (v : String) (score : Int) :
    List (String × Int) :=
  if z.any (fun p => p.1 == v) then
    z.map (fun p => if p.1 == v then (v, score) else p)
  else z ++ [(v, score)]

/-- Modelled from the spec: SortedSet.scoreOf looks up the score of a member;
the SortedSet module is missing from the source tree. -/
def RedisSortedSet.scoreOf (z : List (String × Int)) (v : String) : Option Int :=
  (z.find? (fun p => p.1 == v)).map (fun p => p.2)

/-- Updating the score of every entry of a member leaves the first matching
entry at the new score. -/
theorem find?_score_update (z : List (String × Int)) (v : String) (score : Int)
    (h : z.any (fun p => p.1 == v) = true) :
    (z.map (fun p => if p.1 == v then (v, score) else p)).find?
      (fun p => p.1 == v) = some (v, score) := by
  induction z with
  | nil => simp at h
  | cons a t ih =>
      rw [List.map_cons]
      by_cases ha : a.1 = v
      · rw [if_pos (show (a.1 == v) = true by simpa using ha)]
        rw [List.find?_cons_of_pos _ (by simp)]
      · rw [if_neg (show ¬ (a.1 == v) = true by simpa using ha)]
        rw [List.find?_cons_of_neg _ (by simpa using ha)]
        apply ih
        simp only [List.any_cons] at h
        simpa [ha] using h

/-- Updating the score of a member changes no entry count: the member count of
any value is preserved by the rewrite. -/
theorem countP_score_update (z : List (String × Int)) (v : String) (score : Int) :
    (z.map (fun p => if p.1 == v then (v, score) else p)).countP
      (fun p => p.1 == v) = z.countP (fun p => p.1 == v) := by
  induction z with
  | nil => rfl
  | cons a t ih =>
      rw [List.map_cons]
      by_cases ha : a.1 = v
      · rw [if_pos (show (a.1 == v) = true by simpa using ha)]
        rw [List.countP_cons, List.countP_cons, ih]
        simp [ha]
      · rw [if_neg (show ¬ (a.1 == v) = true by simpa using ha)]
        rw [List.countP_cons, List.countP_cons, ih]

/-- Adding a member makes its score the given one. -/
theorem scoreOf_add (z : List (String × Int)) (v : String) (score : Int) :
    RedisSortedSet.scoreOf (RedisSortedSet.add z v score) v = some score := by
  unfold RedisSortedSet.scoreOf RedisSortedSet.add
  by_cases h : z.any (fun p => p.1 == v) = true
  · rw [if_pos h, find?_score_update z v score h]
    rfl
  · have hz : z.find? (fun p => p.1 == v) = none := by
      rw [List.find?_eq_none]
      intro x hx hpx
      exact h (List.any_eq_true.mpr ⟨x, hx, hpx⟩)
    rw [if_neg h, List.find?_append, hz]
    rw [List.find?_cons_of_pos _ (by simp)]
    rfl

/-- Adding a member leaves it with exactly one entry, provided the set held at
most one entry for it before (the uniqueness invariant). -/
theorem countP_add (z : List (String × Int)) (v : String) (score : Int)
    (h : z.countP (fun p => p.1 == v) ≤ 1) :
    (RedisSortedSet.add z v score).countP (fun p => p.1 == v) = 1 := by
  unfold RedisSortedSet.add
  by_cases ha : z.any (fun p => p.1 == v) = true
  · rw [if_pos ha, countP_score_update]
    have : 0 < z.countP (fun p => p.1 == v) := by
      rw [List.countP_pos_iff]
      exact List.any_eq_true.mp ha
    omega
  · rw [if_neg ha, List.countP_append]
    have hz : z.countP (fun p => p.1 == v) = 0 := by
      rw [List.countP_eq_zero]
      intro x hx hpx
      exact ha (List.any_eq_true.mpr ⟨x, hx, hpx⟩)
    simp [hz, List.countP_cons]

/-- C3: after add of a member with score 5 its score reads back as 5; after a
subsequent set to 9 it reads back as 9 and the member is present exactly
once, assuming the set held at most one entry for the member before. -/
theorem zset_add_set_roundtrip (z : List (String × Int)) (v : String)
    (h : z.countP (fun p => p.1 == v) ≤ 1) :
    RedisSortedSet.scoreOf (RedisSortedSet.add z v 5) v = some 5 ∧
    RedisSortedSet.scoreOf
      (RedisSortedSet.set (RedisSortedSet.add z v 5) v 9) v = some 9 ∧
    (RedisSortedSet.set (RedisSortedSet.add z v 5) v 9).countP
      (fun p => p.1 == v) = 1 := by
  have hset : RedisSortedSet.set = RedisSortedSet.add := rfl
  refine ⟨scoreOf_add z v 5, ?_, ?_⟩
  · rw [hset]
    exact scoreOf_add _ v 9
  · rw [hset]
    exact countP_add _ v 9 (by rw [countP_add z v 5 h])

/-- Witness for C3: the round trip evaluated on the empty sorted set with
member m. -/
theorem zset_add_set_roundtrip_witness :
    RedisSortedSet.scoreOf (RedisSortedSet.add [] "m" 5) "m" = some 5 ∧
    RedisSortedSet.scoreOf
      (RedisSortedSet.set (RedisSortedSet.add [] "m" 5) "m" 9) "m" = some 9 ∧
    (RedisSortedSet.set (RedisSortedSet.add [] "m" 5) "m" 9).countP
      (fun p => p.1 == "m") = 1 :=
  zset_add_set_roundtrip [] "m" (by decide)

/-- The character of a single decimal digit. -/
def digitChar (d : Nat) : Char := Char.ofNat (48 + d)

/-- Prints the decimal digits of a number, most significant first, recursing
on an explicit fuel bound. -/
def natDigitsAux : Nat → Nat → List Char
  | 0, _ => []
  | fuel + 1, n =>
      if n < 10 then [digitChar n]
      else natDigitsAux fuel (n / 10) ++ [digitChar (n % 10)]

/-- Prints a natural number in decimal. -/
def natToStr (n : Nat) : String := String.mk (natDigitsAux (n + 1) n)

/-- Prints an integer in decimal, with a leading minus sign when negative. -/
def intToStr (i : Int) : String :=
  if i < 0 then String.mk ('-' :: natDigitsAux (i.natAbs + 1) i.natAbs)
  else natToStr i.toNat

/-- Modelled from the spec: HashMap field lookup; the HashMap module is
missing from the source tree. -/
def RedisHashMap.lookup (h : List (String × String)) (k : String) : Option String :=
  (h.find? (fun p => p.1 == k)).map (fun p => p.2)

/-- Modelled from the spec: HashMap single field assignment — overwrites the
field when present, appends it otherwise; the HashMap module is missing from
the source tree. -/
def RedisHashMap.setField (h : List (String × String)) (k w : String) :
    List (String × String) :=
  if h.any (fun p => p.1 == k) then
    h.map (fun p => if p.1 == k then (k, w) else p)
  else h ++ [(k, w)]

/-- Modelled from the spec: the error kinds surfaced by the facade (spec
section 7); only the numeric-operation failure is needed here. -/
inductive RedisError where
  | NotANumber
  deriving DecidableEq, Repr

/-- Modelled from the spec: HashMap.increase — an atomic numeric field update
that creates the field at the amount if absent and fails with NotANumber if
the field value is non-numeric; the HashMap module is missing from the source
tree. Returns the updated map with the new field value. -/
def RedisHashMap.increase (h : List (String × String)) (k : String)
    (amount : Int) : Except RedisError (List (String × String) × String) :=
  match RedisHashMap.lookup h k with
  | none =>
      Except.ok (RedisHashMap.setField h k (intToStr amount), intToStr amount)
  | some s =>
      match parseIntStr s with
      | none => Except.error RedisError.NotANumber
      | some n =>
          Except.ok (RedisHashMap.setField h k (intToStr (n + amount)),
            intToStr (n + amount))

/-- Overwriting the entries of a field leaves the first matching entry at the
new value, for pairs with any value type. -/
theorem find?_field_update {β : Type} (z : List (String × β)) (k : String)
    (w : β) (h : z.any (fun p => p.1 == k) = true) :
    (z.map (fun p => if p.1 == k then (k, w) else p)).find?
      (fun p => p.1 == k) = some (k, w) := by
  induction z with
  | nil => simp at h
  | cons a t ih =>
      rw [List.map_cons]
      by_cases ha : a.1 = k
      · rw [if_pos (show (a.1 == k) = true by simpa using ha)]
        rw [List.find?_cons_of_pos _ (by simp)]
      · rw [if_neg (show ¬ (a.1 == k) = true by simpa using ha)]
        rw [List.find?_cons_of_neg _ (by simpa using ha)]
        apply ih
        simp only [List.any_cons] at h
        simpa [ha] using h

/-- Setting a field makes its lookup return the assigned value. -/
theorem lookup_setField (h : List (String × String)) (k w : String) :
    RedisHashMap.lookup (RedisHashMap.setField h k w) k = some w := by
  unfold RedisHashMap.lookup RedisHashMap.setField
  by_cases hh : h.any (fun p => p.1 == k) = true
  · rw [if_pos hh, find?_field_update h k w hh]
    rfl
  · have hz : h.find? (fun p => p.1 == k) = none := by
      rw [List.find?_eq_none]
      intro x hx hpx
      exact hh (List.any_eq_true.mpr ⟨x, hx, hpx⟩)
    rw [if_neg hh, List.find?_append, hz]
    rw [List.find?_cons_of_pos _ (by simp)]
    rfl

/-- C6: increase on an absent field creates it — with value 5 as the string
5, and in general at the printed amount — and increase on a field holding a
non-numeric value fails with NotANumber. -/
theorem hash_increase_absent_creates (h : List (String × String)) (k : String)
    (a : Int) :
    (RedisHashMap.lookup h k = none →
      RedisHashMap.increase h k 5 =
        Except.ok (RedisHashMap.setField h k "5", "5") ∧
      RedisHashMap.increase h k a =
        Except.ok (RedisHashMap.setField h k (intToStr a), intToStr a) ∧
      RedisHashMap.lookup (RedisHashMap.setField h k (intToStr a)) k =
        some (intToStr a)) ∧
    (∀ s, RedisHashMap.lookup h k = some s → parseIntStr s = none →
      RedisHashMap.increase h k a = Except.error RedisError.NotANumber) := by
  constructor
  · intro hnone
    have h5 : intToStr 5 = "5" := by decide
    refine ⟨?_, ?_, lookup_setField h k (intToStr a)⟩
    · unfold RedisHashMap.increase
      rw [hnone, h5]
    · unfold RedisHashMap.increase
      rw [hnone]
  · intro s hs hp
    unfold RedisHashMap.increase
    rw [hs]
    show (match parseIntStr s with
      | none => Except.error RedisError.NotANumber
      | some n => Except.ok (RedisHashMap.setField h k (intToStr (n + a)),
          intToStr (n + a))) = Except.error RedisError.NotANumber
    rw [hp]

/-- Witness for C6: increase on the empty map creates the field k with value
5, and increase on a map whose field k holds the non-numeric value x fails
with NotANumber. -/
theorem hash_increase_absent_creates_witness :
    RedisHashMap.increase [] "k" 5 = Except.ok ([("k", "5")], "5") ∧
    RedisHashMap.increase [("k", "x")] "k" 5 =
      Except.error RedisError.NotANumber := by
  constructor
  · exact (((hash_increase_absent_creates [] "k" 5).1 rfl).1).trans (by rfl)
  · exact (hash_increase_absent_creates [("k", "x")] "k" 5).2 "x" (by decide)
      (by decide)

/-- C4: if the read phase of splice, sort or reverse fails before the single
final write step, the stored key — and the whole store — is left unmodified,
and no result is produced. -/
theorem composite_fail_leaves_store (s : Store) (k : String) (start : Int)
    (count : Nat) (items : List String) (order : Int)
    (h : Store.readList s k = none) :
    (spliceStore s k start count items).1 = none ∧
    (spliceStore s k start count items).2 = s ∧
    (sortStore s k order).1 = none ∧
    (sortStore s k order).2 = s ∧
    (reverseStore s k).1 = none ∧
    (reverseStore s k).2 = s := by
  unfold spliceStore sortStore reverseStore rmwList
  rw [h]
  exact ⟨rfl, rfl, rfl, rfl, rfl, rfl⟩

/-- A concrete store holding a plain string at key k, so that every list
operation on k fails with a wrong-type error during its read phase. -/
def storeStrK : Store :=
  fun q => if q = "k" then some (RedisValue.str "v") else none

/-- Witness for C4: splice, sort and reverse against a key of the wrong type
produce no result and leave the store untouched. -/
theorem composite_fail_leaves_store_witness :
    (spliceStore storeStrK "k" 1 2 ["x"]).1 = none ∧
    (spliceStore storeStrK "k" 1 2 ["x"]).2 = storeStrK ∧
    (sortStore storeStrK "k" (-1)).1 = none ∧
    (sortStore storeStrK "k" (-1)).2 = storeStrK ∧
    (reverseStore storeStrK "k").1 = none ∧
    (reverseStore storeStrK "k").2 = storeStrK :=
  composite_fail_leaves_store storeStrK "k" 1 2 ["x"] (-1) (by decide)

/-- Modelled from the spec: a facade instance is created bound to a key by
the of constructor of its type object; the util module is missing from the
source tree. -/
def RedisFacadeType.of (client : Nat) (k : String) : RedisFacadeHandle :=
  ⟨client, k⟩

/-- Reads the set stored at a key: an absent key denotes the empty set and a
key of another type is a failure. -/
def Store.readSet (s : Store) (k : String) : Option (List String) :=
  match s k with
  | some (RedisValue.set l) => some l
  | none => some []
  | some _ => none

/-- Reads the sorted set stored at a key: an absent key denotes the empty set
and a key of another type is a failure. -/
def Store.readZSet (s : Store) (k : String) : Option (List (String × Int)) :=
  match s k with
  | some (RedisValue.zset z) => some z
  | none => some []
  | some _ => none

/-- Reads the hash stored at a key: an absent key denotes the empty hash and
a key of another type is a failure. -/
def Store.readHash (s : Store) (k : String) : Option (List (String × String)) :=
  match s k with
  | some (RedisValue.hash h) => some h
  | none => some []
  | some _ => none

/-- The facade operations modelled in this development, one constructor per
method. -/
inductive FacadeOp where
  | clear
  | listGet (i : Int)
  | listSet (i : Int) (v : String)
  | listSplice (start : Int) (count : Nat) (items : List String)
  | listSort (order : Int)
  | listReverse
  | setAdd (v : String)
  | zsetAdd (v : String) (score : Int)
  | zsetSetScore (v : String) (score : Int)
  | hashIncrease (field : String) (amount : Int)

/-- Modelled from the spec: applying a facade operation through a handle —
every method issues commands against the bound key and yields the resulting
handle-store pair; a failing operation leaves the store unchanged. -/
def applyOp : FacadeOp → RedisFacadeHandle × Store → RedisFacadeHandle × Store
  | FacadeOp.clear, (h, s) => (h, Store.update s h.key none)
  | FacadeOp.listGet _, (h, s) => (h, s)
  | FacadeOp.listSet i v, (h, s) =>
      match Store.readList s h.key with
      | none => (h, s)
      | some l =>
          match RedisList.set l i v with
          | none => (h, s)
          | some nl => (h, Store.update s h.key (some (RedisValue.list nl)))
  | FacadeOp.listSplice st c items, (h, s) =>
      (h, (spliceStore s h.key st c items).2)
  | FacadeOp.listSort o, (h, s) => (h, (sortStore s h.key o).2)
  | FacadeOp.listReverse, (h, s) => (h, (reverseStore s h.key).2)
  | FacadeOp.setAdd v, (h, s) =>
      match Store.readSet s h.key with
      | none => (h, s)
      | some l =>
          (h, Store.update s h.key (some (RedisValue.set (RedisSet.add l v))))
  | FacadeOp.zsetAdd v sc, (h, s) =>
      match Store.readZSet s h.key with
      | none => (h, s)
      | some z =>
          (h, Store.update s h.key
            (some (RedisValue.zset (RedisSortedSet.add z v sc))))
  | FacadeOp.zsetSetScore v sc, (h, s) =>
      match Store.readZSet s h.key with
      | none => (h, s)
      | some z =>
          (h, Store.update s h.key
            (some (RedisValue.zset (RedisSortedSet.set z v sc))))
  | FacadeOp.hashIncrease f a, (h, s) =>
      match Store.readHash s h.key with
      | none => (h, s)
      | some m =>
          match RedisHashMap.increase m f a with
          | Except.error _ => (h, s)
          | Except.ok r =>
              (h, Store.update s h.key (some (RedisValue.hash r.1)))

/-- Applying any modelled operation returns the handle it was applied
through, unchanged. -/
theorem applyOp_fst (op : FacadeOp) (h : RedisFacadeHandle) (s : Store) :
    (applyOp op (h, s)).1 = h := by
  cases op <;> simp only [applyOp] <;> (repeat' split) <;> rfl

/-- C10: every modelled facade operation — clear included — returns the very
handle it was applied through, so a handle created by of stays bound to the
same client and key; clear deletes the underlying store key. -/
theorem facade_op_preserves_handle (op : FacadeOp) (c : Nat) (k : String)
    (s : Store) :
    (applyOp op (RedisFacadeType.of c k, s)).1 = RedisFacadeType.of c k ∧
    (RedisFacadeType.of c k).client = c ∧
    (RedisFacadeType.of c k).key = k ∧
    (applyOp FacadeOp.clear (RedisFacadeType.of c k, s)).2 k = none := by
  refine ⟨applyOp_fst op _ s, rfl, rfl, ?_⟩
  show Store.update s k none k = none
  unfold Store.update
  simp
